import Mathlib

/-!
Verification of the mailbox verification-code forwarder (`src/main.py`).

The development shallowly embeds, over `List Char`, the parts of the program
that the specification talks about:

* `clean_html_text` — the sanitizer `EmailMonitor._clean_html_text`
  (main.py lines 386-413), built from ten sequential regex substitutions,
  each modelled by the generic left-to-right scanner `substB`;
* `extract_verification_code` — `EmailMonitor.extract_verification_code`
  (lines 415-447): the five entries of `Config.CODE_PATTERNS` (lines 52-70)
  are modelled by anchored matchers `tryP1` … `tryP5`, searched leftmost by
  `re_search`, with the acceptance guard `acceptCode`
  (`code.isdigit() and 4 <= len(code) <= 8`);
* `run_cycle_update`, `run_error_step`, `run_error_trace` — the error-backoff
  bookkeeping of `EmailMonitor.run` (lines 646-667);
* `send_to_telegram` — the per-destination delivery loop of
  `EmailMonitor.send_to_telegram` (lines 543-590);
* `handle_message`, `check_emails_loop` — the per-message portion of
  `EmailMonitor.check_emails` (lines 592-631), as a trace of events.

Machine strings are `List Char`; Python's unbounded ints are `Int` where the
program can rely on negativity (the error counter), `Nat` elsewhere.  The
character classes `\d`, `\s`, `\w` are modelled at their ASCII cores.
-/

/-! ## Configuration constants (`Config`, main.py lines 30-70) -/

namespace Config

def MAX_ERROR_COUNT : Int := 5

def ERROR_BACKOFF : Int := 60

def CHECK_INTERVAL : Int := 15

end Config

/-! ## Character-class helpers (ASCII cores of Python `\d`, `\s`, `\w`) -/

def isPyWs (c : Char) : Bool :=
  c == ' ' || c == '\t' || c == '\n' || c == '\r' || c == '\x0b' || c == '\x0c'

def isWordCh (c : Char) : Bool :=
  c.isAlphanum || c == '_'

/-- Length of the maximal leading run of characters satisfying `p`
(the greedy munch of a character class). -/
def countWhile (p : Char → Bool) : List Char → Nat
  | [] => 0
  | c :: cs => if p c then countWhile p cs + 1 else 0

/-- Case-insensitive literal match at the head of the text
(models a literal under `re.IGNORECASE`; `Char.toLower` is the identity
outside ASCII letters, as in the CJK literals below). -/
def startsWithCI : List Char → List Char → Bool
  | [], _ => true
  | _ :: _, [] => false
  | p :: ps, c :: cs => (p.toLower == c.toLower) && startsWithCI ps cs

/-! ## Generic regex-substitution scanner

`substB rule prev s` models `re.sub(pattern, ' ', s)` for a pattern with no
empty match: `rule prev suffix = some n` means the pattern matches exactly
`n + 1` leading characters of `suffix` (`prev` is the character just before
`suffix` in the original string, for `\b` look-behind).  Scanning is leftmost
and non-overlapping, and every match is replaced by a single space, exactly
as `re.sub` does. -/

def substB (rule : Option Char → List Char → Option Nat) :
    Nat → Option Char → List Char → List Char
  | 0, _, _ => []
  | _ + 1, _, [] => []
  | fuel + 1, prev, x :: xs =>
    match rule prev (x :: xs) with
    | some n => ' ' :: substB rule fuel (some ((xs.take n).getLastD x)) (xs.drop n)
    | none => x :: substB rule fuel (some x) xs

/-- `re.sub(pattern, ' ', s)` via `substB`.  The fuel `s.length` is exact:
every step consumes at least one character and one unit of fuel, so with
`s.length ≤ fuel` the fuel is never exhausted. -/
def pySub (rule : Option Char → List Char → Option Nat) (s : List Char) : List Char :=
  substB rule s.length none s

/-! ## Generic leftmost search with one capture group

`re_search rule prev s` models `re.search`: `rule` decides whether a match
starts exactly at the head of the given suffix and, if so, returns the
capture group as `(offset, length)` relative to that suffix.  The first
(leftmost) matching start position wins. -/

def re_search (rule : Option Char → List Char → Option (Nat × Nat)) :
    Option Char → List Char → Option (List Char)
  | prev, [] =>
    (rule prev []).map (fun il => ((([] : List Char).drop il.1).take il.2))
  | prev, x :: xs =>
    match rule prev (x :: xs) with
    | some il => some (((x :: xs).drop il.1).take il.2)
    | none => re_search rule (some x) xs

/-! ## The ten sanitizer substitutions (`_clean_html_text`, lines 392-411) -/

/-- `<[^>]+>` — strip markup tags (line 392). -/
def tryTag (_ : Option Char) (s : List Char) : Option Nat :=
  match s with
  | '<' :: rest =>
    let a := countWhile (fun c => !(c == '>')) rest
    if 1 ≤ a then
      match rest.drop a with
      | '>' :: _ => some (a + 1)
      | _ => none
    else none
  | _ => none

/-- `#\d{3,6}` — strip colour codes such as `#333333` (line 395). -/
def tryColor (_ : Option Char) (s : List Char) : Option Nat :=
  match s with
  | '#' :: rest =>
    let d := countWhile Char.isDigit rest
    if 3 ≤ d then some (min d 6) else none
  | _ => none

/-- `rgba?\(\s*\d+\s*,\s*\d+\s*,\s*\d+` — strip rgb()/rgba() heads (line 396). -/
def tryRgb (_ : Option Char) (s : List Char) : Option Nat :=
  match s with
  | 'r' :: 'g' :: 'b' :: rest =>
    let head : Option (Nat × List Char) :=
      match rest with
      | 'a' :: '(' :: r => some (5, r)
      | '(' :: r => some (4, r)
      | _ => none
    match head with
    | none => none
    | some kr =>
      let w1 := countWhile isPyWs kr.2
      let d1 := countWhile Char.isDigit (kr.2.drop w1)
      if 1 ≤ d1 then
        let r1 := kr.2.drop (w1 + d1)
        let w2 := countWhile isPyWs r1
        match r1.drop w2 with
        | ',' :: r2 =>
          let w3 := countWhile isPyWs r2
          let d2 := countWhile Char.isDigit (r2.drop w3)
          if 1 ≤ d2 then
            let r3 := r2.drop (w3 + d2)
            let w4 := countWhile isPyWs r3
            match r3.drop w4 with
            | ',' :: r4 =>
              let w5 := countWhile isPyWs r4
              let d3 := countWhile Char.isDigit (r4.drop w5)
              if 1 ≤ d3 then
                some (kr.1 + w1 + d1 + w2 + 1 + w3 + d2 + w4 + 1 + w5 + d3 - 1)
              else none
            | _ => none
          else none
        | _ => none
      else none
  | _ => none

/-- `\b(margin|padding|width|height|color|font-size)[: ]*\d+`, `re.IGNORECASE`
— strip CSS property/value pairs (line 399). -/
def tryCss (prev : Option Char) (s : List Char) : Option Nat :=
  let bOk := match prev with
    | none => true
    | some c => !(isWordCh c)
  if bOk then
    let word : Option Nat :=
      if startsWithCI ['m','a','r','g','i','n'] s then some 6
      else if startsWithCI ['p','a','d','d','i','n','g'] s then some 7
      else if startsWithCI ['w','i','d','t','h'] s then some 5
      else if startsWithCI ['h','e','i','g','h','t'] s then some 6
      else if startsWithCI ['c','o','l','o','r'] s then some 5
      else if startsWithCI ['f','o','n','t','-','s','i','z','e'] s then some 9
      else none
    match word with
    | none => none
    | some l =>
      let sep := countWhile (fun c => c == ':' || c == ' ') (s.drop l)
      let d := countWhile Char.isDigit (s.drop (l + sep))
      if 1 ≤ d then some (l + sep + d - 1) else none
  else none

/-- `\d+px`, `re.IGNORECASE` — strip pixel measurements (line 400). -/
def tryPx (_ : Option Char) (s : List Char) : Option Nat :=
  let d := countWhile Char.isDigit s
  if 1 ≤ d then
    match s.drop d with
    | p :: x :: _ => if p.toLower == 'p' && x.toLower == 'x' then some (d + 1) else none
    | _ => none
  else none

/-- `&#\d+;` — strip HTML numeric entities (line 403). -/
def tryEntity (_ : Option Char) (s : List Char) : Option Nat :=
  match s with
  | '&' :: '#' :: rest =>
    let d := countWhile Char.isDigit rest
    if 1 ≤ d then
      match rest.drop d with
      | ';' :: _ => some (d + 2)
      | _ => none
    else none
  | _ => none

/-- Body of the card-number patterns: `n` groups of exactly four digits,
separated by `-` or space, the last group closed by `\b`.
Returns the total matched length. -/
def cardMatch : Nat → List Char → Option Nat
  | 0, _ => none
  | 1, s =>
    if countWhile Char.isDigit s = 4 then
      match s.drop 4 with
      | [] => some 4
      | c :: _ => if isWordCh c then none else some 4
    else none
  | n + 2, s =>
    if countWhile Char.isDigit s = 4 then
      match s.drop 4 with
      | c :: rest =>
        if c == '-' || c == ' ' then
          (cardMatch (n + 1) rest).map (fun l => l + 5)
        else none
      | [] => none
    else none

/-- `\b\d{4}[- ]\d{4}…\b` with `n` digit groups — strip card-number-like
digit groups (lines 406-408 use `n` = 4, 3, 2). -/
def tryCard (n : Nat) (prev : Option Char) (s : List Char) : Option Nat :=
  let bOk := match prev with
    | none => true
    | some c => !(isWordCh c)
  if bOk then (cardMatch n s).map (fun l => l - 1) else none

/-- `\s+` — collapse whitespace runs to a single space (line 411). -/
def tryWs (_ : Option Char) (s : List Char) : Option Nat :=
  let w := countWhile isPyWs s
  if 1 ≤ w then some (w - 1) else none

/-- Python `str.strip()` at its ASCII-whitespace core. -/
def pyStrip (l : List Char) : List Char :=
  ((l.dropWhile isPyWs).reverse.dropWhile isPyWs).reverse

/-- `EmailMonitor._clean_html_text` (main.py lines 386-413): the ten
substitutions in source order, then `strip()`. -/
def clean_html_text (text : List Char) : List Char :=
  if text = [] then []
  else
    pyStrip
      (pySub tryWs
        (pySub (tryCard 2)
          (pySub (tryCard 3)
            (pySub (tryCard 4)
              (pySub tryEntity
                (pySub tryPx
                  (pySub tryCss
                    (pySub tryRgb
                      (pySub tryColor
                        (pySub tryTag text))))))))))

/-! ## The five `Config.CODE_PATTERNS` (main.py lines 52-70) -/

/-- Pattern 1: `(?:验证码[^<]*</p>)[^<]*(?:<div[^>]*>)[^0-9]*(\d{6})`,
searched with `re.IGNORECASE` over the raw text. -/
def tryP1 (_ : Option Char) (s : List Char) : Option (Nat × Nat) :=
  if startsWithCI ['验','证','码'] s then
    let a := countWhile (fun c => !(c == '<')) (s.drop 3)
    if startsWithCI ['<','/','p','>'] (s.drop (3 + a)) then
      let b := countWhile (fun c => !(c == '<')) (s.drop (3 + a + 4))
      if startsWithCI ['<','d','i','v'] (s.drop (3 + a + 4 + b)) then
        let g := countWhile (fun c => !(c == '>')) (s.drop (3 + a + 4 + b + 4))
        match s.drop (3 + a + 4 + b + 4 + g) with
        | '>' :: r =>
          let h := countWhile (fun c => !c.isDigit) r
          if 6 ≤ countWhile Char.isDigit (r.drop h) then
            some (3 + a + 4 + b + 4 + g + 1 + h, 6)
          else none
        | _ => none
      else none
    else none
  else none

/-- Pattern 2: `验证码[^<]*</p>\s*<div[^>]*>\s*(\d{6})\s*</div>`,
searched with `re.IGNORECASE` over the raw text. -/
def tryP2 (_ : Option Char) (s : List Char) : Option (Nat × Nat) :=
  if startsWithCI ['验','证','码'] s then
    let a := countWhile (fun c => !(c == '<')) (s.drop 3)
    if startsWithCI ['<','/','p','>'] (s.drop (3 + a)) then
      let w1 := countWhile isPyWs (s.drop (3 + a + 4))
      if startsWithCI ['<','d','i','v'] (s.drop (3 + a + 4 + w1)) then
        let g := countWhile (fun c => !(c == '>')) (s.drop (3 + a + 4 + w1 + 4))
        match s.drop (3 + a + 4 + w1 + 4 + g) with
        | '>' :: r =>
          let w2 := countWhile isPyWs r
          if countWhile Char.isDigit (r.drop w2) = 6 then
            let w3 := countWhile isPyWs (r.drop (w2 + 6))
            if startsWithCI ['<','/','d','i','v','>'] (r.drop (w2 + 6 + w3)) then
              some (3 + a + 4 + w1 + 4 + g + 1 + w2, 6)
            else none
          else none
        | _ => none
      else none
    else none
  else none

/-- Pattern 3: `(?:验证码|验证代码|Code|CODE)[：:\s]*(\d{4,8})` with
`re.IGNORECASE` (so the two ASCII alternatives collapse to caseless
`code`), searched over the sanitized text. -/
def tryP3 (_ : Option Char) (s : List Char) : Option (Nat × Nat) :=
  let label : Option Nat :=
    if startsWithCI ['验','证','码'] s then some 3
    else if startsWithCI ['验','证','代','码'] s then some 4
    else if startsWithCI ['c','o','d','e'] s then some 4
    else none
  match label with
  | none => none
  | some l =>
    let sep := countWhile (fun c => c == '：' || c == ':' || isPyWs c) (s.drop l)
    let d := countWhile Char.isDigit (s.drop (l + sep))
    if 4 ≤ d then some (l + sep, min d 8) else none

/-- Pattern 4: `^\s*(\d{4,8})\s*$` (no `re.MULTILINE`, so anchored to the
whole sanitized text). -/
def matchP4 (s : List Char) : Option (Nat × Nat) :=
  let w := countWhile isPyWs s
  let d := countWhile Char.isDigit (s.drop w)
  if 4 ≤ d ∧ d ≤ 8 then
    let w2 := countWhile isPyWs (s.drop (w + d))
    if s.drop (w + d + w2) = [] then some (w, d) else none
  else none

def p4_result (s : List Char) : Option (List Char) :=
  (matchP4 s).map (fun il => ((s.drop il.1).take il.2))

/-- Pattern 5: `(?<![#\-\.\d])(\d{6})(?![#\-\.\d%px])` with `re.IGNORECASE`
(so `p`/`x` in the look-ahead are caseless), searched over the sanitized
text. -/
def tryP5 (prev : Option Char) (s : List Char) : Option (Nat × Nat) :=
  let behindOk := match prev with
    | none => true
    | some c => !(c == '#' || c == '-' || c == '.' || c.isDigit)
  if behindOk then
    if countWhile Char.isDigit s = 6 then
      match s.drop 6 with
      | [] => some (0, 6)
      | c :: _ =>
        if c == '#' || c == '-' || c == '.' || c == '%' ||
            c.toLower == 'p' || c.toLower == 'x' || c.isDigit then none
        else some (0, 6)
    else none
  else none

/-- The acceptance guard of `extract_verification_code` (lines 434 and 443):
`code.isdigit() and 4 <= len(code) <= 8`.  A match whose capture fails
the guard is dropped and evaluation continues with the next pattern. -/
def acceptCode : Option (List Char) → Option (List Char)
  | none => none
  | some c =>
    if c.all Char.isDigit ∧ 4 ≤ c.length ∧ c.length ≤ 8 then some c else none

/-- `EmailMonitor.extract_verification_code` (main.py lines 415-447):
empty text yields `None`; the text is truncated to its first 1000
characters; patterns 1-2 are searched over the raw truncated text,
patterns 3-5 over the sanitized text; the first accepted capture wins. -/
def extract_verification_code (text : List Char) : Option (List Char) :=
  if text = [] then none
  else
    match acceptCode (re_search tryP1 none (text.take 1000)) with
    | some c => some c
    | none =>
      match acceptCode (re_search tryP2 none (text.take 1000)) with
      | some c => some c
      | none =>
        match acceptCode (re_search tryP3 none (clean_html_text (text.take 1000))) with
        | some c => some c
        | none =>
          match acceptCode (p4_result (clean_html_text (text.take 1000))) with
          | some c => some c
          | none => acceptCode (re_search tryP5 none (clean_html_text (text.take 1000)))

/-! ## Scheduler error-backoff state machine (`EmailMonitor.run`, lines 646-667) -/

/-- `error_count` update for one cycle outcome (lines 654-658):
`max(0, error_count - 1)` on success, `error_count + 1` on failure. -/
def run_cycle_update (ec : Int) (success : Bool) : Int :=
  if success then max 0 (ec - 1) else ec + 1

/-- One full pass of the error bookkeeping (lines 654-664): the cycle update,
then, if the counter has reached `MAX_ERROR_COUNT`, an `ERROR_BACKOFF`-second
cooling sleep (the `Option Int` component) and a reset to
`MAX_ERROR_COUNT // 2`. -/
def run_error_step (ec : Int) (success : Bool) : Int × Option Int :=
  let e := run_cycle_update ec success
  if Config.MAX_ERROR_COUNT ≤ e then
    (Config.MAX_ERROR_COUNT / 2, some Config.ERROR_BACKOFF)
  else (e, none)

/-- The counter after a sequence of cycle outcomes, starting from the
initial `self.error_count = 0` (line 354). -/
def run_error_trace (outcomes : List Bool) : Int :=
  outcomes.foldl (fun ec b => (run_error_step ec b).1) 0

/-! ## Dispatcher (`EmailMonitor.send_to_telegram`, lines 543-590) -/

/-- A destination accepts iff its HTTP response is status 200; `none` models
a transport exception caught by the per-destination handler. -/
def telegram_ok : Option Nat → Bool
  | some status => status == 200
  | none => false

/-- The per-destination loop (lines 562-581): every configured chat id is
attempted, each against its own outcome, none skipped. -/
def send_to_telegram_attempts (chat_ids : List String)
    (outcome : String → Option Nat) : List (String × Bool) :=
  chat_ids.map (fun cid => (cid, telegram_ok (outcome cid)))

/-- The return value `success_count > 0` (line 586). -/
def send_to_telegram (chat_ids : List String)
    (outcome : String → Option Nat) : Bool :=
  decide (0 < (send_to_telegram_attempts chat_ids outcome).countP (fun a => a.2))

/-! ## Per-message handling in `check_emails` (lines 592-631) -/

/-- The fields of `EmailInfo` that the forwarding decision can see. -/
structure EmailInfoM where
  subject : List Char
  code : Option (List Char)
deriving DecidableEq

/-- Python truthiness of `email_info.code` (line 614): `None` and the empty
string are falsy. -/
def pyTruthy : Option (List Char) → Bool
  | none => false
  | some c => !c.isEmpty

/-- `process_email` (lines 479-541) restricted to the decision-relevant
fields: the subject is decoded, the code is extracted from the body. -/
def process_email_info (subject body : List Char) : EmailInfoM :=
  { subject := subject, code := extract_verification_code body }

/-- Whether a message is forwarded by `check_emails` (lines 614-618): a send
is attempted iff the extracted code is truthy, and the cycle counts the
message as forwarded iff that send reported success.  The subject plays no
role in the code. -/
def message_forwarded (subject body : List Char) (sendOk : Bool) : Bool :=
  pyTruthy (process_email_info subject body).code && sendOk

/-- Observable per-message actions of the `check_emails` loop. -/
inductive MailEvent where
  | sent : Nat → MailEvent
  | marked : Nat → MailEvent
deriving DecidableEq

def MailEvent.msgId : MailEvent → Nat
  | MailEvent.sent i => i
  | MailEvent.marked i => i

/-- The loop body for one message id (lines 610-621): if `process_email`
returned an `EmailInfo` (`some`), a Telegram send is attempted when the code
is truthy, and then — unconditionally — the message is marked `\Seen`.
A message whose processing failed (`none`) produces no actions. -/
def handle_message (i : Nat) (result : Option EmailInfoM) : List MailEvent :=
  match result with
  | none => []
  | some info =>
    (if pyTruthy info.code then [MailEvent.sent i] else []) ++ [MailEvent.marked i]

/-- The event trace of one `check_emails` cycle over the fetched message
list (each entry: server id paired with the `process_email` result). -/
def check_emails_loop : List (Nat × Option EmailInfoM) → List MailEvent
  | [] => []
  | m :: rest => handle_message m.1 m.2 ++ check_emails_loop rest

/-! ## Contiguous-substring predicate used to state claim C10 -/

/-- `IsSub c s`: `c` occurs contiguously inside `s`. -/
def IsSub (c s : List Char) : Prop := ∃ p q, s = p ++ c ++ q

/-- `IsPre c s`: `c` is a leading segment of `s`. -/
def IsPre (c s : List Char) : Prop := ∃ q, s = c ++ q

/-! ## Substring lemmas -/

theorem isSub_of_isPre {c s : List Char} (h : IsPre c s) : IsSub c s := by
  obtain ⟨q, hq⟩ := h
  exact ⟨[], q, by simpa using hq⟩

theorem isSub_cons (x : Char) {c s : List Char} (h : IsSub c s) : IsSub c (x :: s) := by
  obtain ⟨p, q, hp⟩ := h
  exact ⟨x :: p, q, by simp [hp]⟩

theorem isSub_of_drop {c s : List Char} (n : Nat) (h : IsSub c (s.drop n)) : IsSub c s := by
  obtain ⟨p, q, hp⟩ := h
  refine ⟨s.take n ++ p, q, ?_⟩
  conv_lhs => rw [← List.take_append_drop n s]
  rw [hp]
  simp

theorem isSub_dropTake (s : List Char) (i n : Nat) : IsSub ((s.drop i).take n) s := by
  refine isSub_of_drop i ⟨[], (s.drop i).drop n, ?_⟩
  simp

theorem isSub_trans {a b c : List Char} (h1 : IsSub a b) (h2 : IsSub b c) : IsSub a c := by
  obtain ⟨p, q, hp⟩ := h1
  obtain ⟨r, t, hr⟩ := h2
  exact ⟨r ++ p, q ++ t, by rw [hr, hp]; simp⟩

theorem isSub_nil_elim {c : List Char} (h : IsSub c []) : c = [] := by
  obtain ⟨p, q, hp⟩ := h
  have h2 := hp.symm
  simp only [List.append_eq_nil] at h2
  exact h2.1.2

theorem isSub_cons_elim {c : List Char} {x : Char} {s : List Char} (h : IsSub c (x :: s)) :
    IsPre c (x :: s) ∨ IsSub c s := by
  obtain ⟨p, q, hp⟩ := h
  cases p with
  | nil => exact Or.inl ⟨q, by simpa using hp⟩
  | cons y p' =>
    right
    simp only [List.cons_append, List.cons.injEq] at hp
    exact ⟨p', q, hp.2⟩

/-! ## The substitution scanner only deletes or replaces with spaces, so any
space-free segment of its output already occurred contiguously in its input -/

theorem substB_pre (rule : Option Char → List Char → Option Nat) :
    ∀ (fuel : Nat) (s : List Char) (prev : Option Char) (c : List Char),
      (∀ x ∈ c, x ≠ ' ') → IsPre c (substB rule fuel prev s) → IsPre c s := by
  intro fuel
  induction fuel with
  | zero =>
    intro s prev c hc h
    simp only [substB] at h
    obtain ⟨q, hq⟩ := h
    rcases (List.append_eq_nil.mp hq.symm) with ⟨hc1, _⟩
    subst hc1
    exact ⟨s, rfl⟩
  | succ n ih =>
    intro s prev c hc h
    cases s with
    | nil =>
      simp only [substB] at h
      obtain ⟨q, hq⟩ := h
      rcases (List.append_eq_nil.mp hq.symm) with ⟨hc1, _⟩
      subst hc1
      exact ⟨[], rfl⟩
    | cons x xs =>
      cases hr : rule prev (x :: xs) with
      | some m =>
        simp only [substB, hr] at h
        cases c with
        | nil => exact ⟨x :: xs, rfl⟩
        | cons y c' =>
          obtain ⟨q, hq⟩ := h
          simp only [List.cons_append, List.cons.injEq] at hq
          exact absurd hq.1.symm (hc y (List.mem_cons_self y c'))
      | none =>
        simp only [substB, hr] at h
        cases c with
        | nil => exact ⟨x :: xs, rfl⟩
        | cons y c' =>
          obtain ⟨q, hq⟩ := h
          simp only [List.cons_append, List.cons.injEq] at hq
          obtain ⟨rfl, hq2⟩ := hq
          obtain ⟨q', hq'⟩ :=
            ih xs (some x) c' (fun z hz => hc z (List.mem_cons_of_mem _ hz)) ⟨q, hq2⟩
          exact ⟨q', by simp [hq']⟩

theorem substB_sub (rule : Option Char → List Char → Option Nat) :
    ∀ (fuel : Nat) (s : List Char) (prev : Option Char) (c : List Char),
      c ≠ [] → (∀ x ∈ c, x ≠ ' ') → IsSub c (substB rule fuel prev s) → IsSub c s := by
  intro fuel
  induction fuel with
  | zero =>
    intro s prev c hne hc h
    simp only [substB] at h
    exact absurd (isSub_nil_elim h) hne
  | succ n ih =>
    intro s prev c hne hc h
    cases s with
    | nil =>
      simp only [substB] at h
      exact absurd (isSub_nil_elim h) hne
    | cons x xs =>
      cases hr : rule prev (x :: xs) with
      | some m =>
        simp only [substB, hr] at h
        rcases isSub_cons_elim h with hp | hsub
        · obtain ⟨q, hq⟩ := hp
          cases c with
          | nil => exact absurd rfl hne
          | cons y c' =>
            simp only [List.cons_append, List.cons.injEq] at hq
            exact absurd hq.1.symm (hc y (List.mem_cons_self y c'))
        · exact isSub_cons x (isSub_of_drop m (ih (xs.drop m) _ c hne hc hsub))
      | none =>
        simp only [substB, hr] at h
        rcases isSub_cons_elim h with hp | hsub
        · cases c with
          | nil => exact absurd rfl hne
          | cons y c' =>
            obtain ⟨q, hq⟩ := hp
            simp only [List.cons_append, List.cons.injEq] at hq
            obtain ⟨rfl, hq2⟩ := hq
            obtain ⟨q', hq'⟩ := substB_pre rule n xs (some x) c'
              (fun z hz => hc z (List.mem_cons_of_mem _ hz)) ⟨q, hq2⟩
            exact ⟨[], q', by simp [hq']⟩
        · exact isSub_cons x (ih xs (some x) c hne hc hsub)

theorem pySub_sub (rule : Option Char → List Char → Option Nat)
    (s c : List Char) (hne : c ≠ []) (hc : ∀ x ∈ c, x ≠ ' ')
    (h : IsSub c (pySub rule s)) : IsSub c s :=
  substB_sub rule s.length s none c hne hc h

theorem isSub_dropWhile (p : Char → Bool) (l : List Char) : IsSub (l.dropWhile p) l := by
  induction l with
  | nil => exact ⟨[], [], rfl⟩
  | cons x xs ih =>
    by_cases hx : p x
    · simpa [List.dropWhile_cons, hx] using isSub_cons x ih
    · exact ⟨[], [], by simp [List.dropWhile_cons, hx]⟩

theorem isSub_reverse {a b : List Char} (h : IsSub a b) : IsSub a.reverse b.reverse := by
  obtain ⟨p, q, hp⟩ := h
  exact ⟨q.reverse, p.reverse, by rw [hp]; simp⟩

theorem pyStrip_isSub (l : List Char) : IsSub (pyStrip l) l := by
  have h1 := isSub_dropWhile isPyWs ((l.dropWhile isPyWs).reverse)
  have h2 := isSub_reverse h1
  rw [List.reverse_reverse] at h2
  exact isSub_trans h2 (isSub_dropWhile isPyWs l)

/-- The full sanitizer never moves digits together: a nonempty space-free
segment of `clean_html_text s` occurred contiguously in `s` itself. -/
theorem clean_sub (s c : List Char) (hne : c ≠ []) (hc : ∀ x ∈ c, x ≠ ' ')
    (h : IsSub c (clean_html_text s)) : IsSub c s := by
  by_cases hs : s = []
  · subst hs
    simp only [clean_html_text, if_pos rfl] at h
    exact absurd (isSub_nil_elim h) hne
  · simp only [clean_html_text, if_neg hs] at h
    have h1 := isSub_trans h (pyStrip_isSub _)
    have h2 := pySub_sub _ _ _ hne hc h1
    have h3 := pySub_sub _ _ _ hne hc h2
    have h4 := pySub_sub _ _ _ hne hc h3
    have h5 := pySub_sub _ _ _ hne hc h4
    have h6 := pySub_sub _ _ _ hne hc h5
    have h7 := pySub_sub _ _ _ hne hc h6
    have h8 := pySub_sub _ _ _ hne hc h7
    have h9 := pySub_sub _ _ _ hne hc h8
    have h10 := pySub_sub _ _ _ hne hc h9
    exact pySub_sub _ _ _ hne hc h10

/-! ## Every search capture is a contiguous segment of the searched text -/

theorem re_search_sub (rule : Option Char → List Char → Option (Nat × Nat)) :
    ∀ (s : List Char) (prev : Option Char) (c : List Char),
      re_search rule prev s = some c → IsSub c s := by
  intro s
  induction s with
  | nil =>
    intro prev c h
    simp only [re_search] at h
    cases hr : rule prev [] with
    | none => rw [hr] at h; simp at h
    | some il =>
      rw [hr] at h
      simp only [Option.map_some'] at h
      injection h with h
      subst h
      simp only [List.drop_nil, List.take_nil]
      exact ⟨[], [], rfl⟩
  | cons x xs ih =>
    intro prev c h
    cases hr : rule prev (x :: xs) with
    | some il =>
      simp only [re_search, hr] at h
      injection h with h
      subst h
      exact isSub_dropTake _ _ _
    | none =>
      simp only [re_search, hr] at h
      exact isSub_cons x (ih (some x) c h)

theorem p4_sub (s : List Char) (c : List Char) (h : p4_result s = some c) : IsSub c s := by
  simp only [p4_result] at h
  cases hm : matchP4 s with
  | none => rw [hm] at h; simp at h
  | some il =>
    rw [hm] at h
    simp only [Option.map_some'] at h
    injection h with h
    subst h
    exact isSub_dropTake _ _ _

/-! ## The acceptance guard -/

theorem acceptCode_eq_some {o : Option (List Char)} {c : List Char}
    (h : acceptCode o = some c) :
    o = some c ∧ c.all Char.isDigit = true ∧ 4 ≤ c.length ∧ c.length ≤ 8 := by
  cases o with
  | none => simp [acceptCode] at h
  | some c' =>
    simp only [acceptCode] at h
    split at h
    · rename_i hg
      injection h with h
      subst h
      exact ⟨rfl, hg.1, hg.2.1, hg.2.2⟩
    · cases h

theorem digits_ne_space {c : List Char} (hall : c.all Char.isDigit = true) :
    ∀ x ∈ c, x ≠ ' ' := by
  intro x hx he
  subst he
  exact absurd (List.all_eq_true.mp hall ' ' hx) (by decide)

theorem length_ge_four_ne_nil {c : List Char} (h : 4 ≤ c.length) : c ≠ [] := by
  intro hn
  subst hn
  simp at h

/-! ## Claims -/

/-- C4: for every input text, if `extract_verification_code` returns a code
then that code consists only of digits and its length is between 4 and 8
inclusive — every returned capture passes the guard
`code.isdigit() and 4 <= len(code) <= 8` (main.py lines 434, 443). -/
theorem c4_code_all_digits_length_4_8 (text c : List Char)
    (h : extract_verification_code text = some c) :
    c.all Char.isDigit = true ∧ 4 ≤ c.length ∧ c.length ≤ 8 := by
  unfold extract_verification_code at h
  split at h
  · cases h
  · cases h1 : acceptCode (re_search tryP1 none (text.take 1000)) with
    | some c1 =>
      simp only [h1] at h
      injection h with h
      subst h
      exact (acceptCode_eq_some h1).2
    | none =>
      simp only [h1] at h
      cases h2 : acceptCode (re_search tryP2 none (text.take 1000)) with
      | some c2 =>
        simp only [h2] at h
        injection h with h
        subst h
        exact (acceptCode_eq_some h2).2
      | none =>
        simp only [h2] at h
        cases h3 : acceptCode (re_search tryP3 none (clean_html_text (text.take 1000))) with
        | some c3 =>
          simp only [h3] at h
          injection h with h
          subst h
          exact (acceptCode_eq_some h3).2
        | none =>
          simp only [h3] at h
          cases h4 : acceptCode (p4_result (clean_html_text (text.take 1000))) with
          | some c4 =>
            simp only [h4] at h
            injection h with h
            subst h
            exact (acceptCode_eq_some h4).2
          | none =>
            simp only [h4] at h
            exact (acceptCode_eq_some h).2

theorem c4_witness :
    ("31415926".data).all Char.isDigit = true ∧
      4 ≤ ("31415926".data).length ∧ ("31415926".data).length ≤ 8 :=
  c4_code_all_digits_length_4_8 ("验证码:31415926".data) ("31415926".data) (by decide)

/-- C10 (implicit): if the extractor returns a code, that code occurs as a
contiguous run of digits within the first 1000 characters of the input text:
captures from patterns 1-2 are segments of the truncated raw text, captures
from patterns 3-5 are segments of the sanitized text, and the sanitizer
(which only replaces removed fragments by spaces) never joins previously
separated digit runs. -/
theorem c10_code_is_substring_of_prefix (text c : List Char)
    (h : extract_verification_code text = some c) :
    c ≠ [] ∧ c.all Char.isDigit = true ∧ IsSub c (text.take 1000) := by
  unfold extract_verification_code at h
  split at h
  · cases h
  · cases h1 : acceptCode (re_search tryP1 none (text.take 1000)) with
    | some c1 =>
      simp only [h1] at h
      injection h with h
      subst h
      obtain ⟨ho, hall, hlen, _⟩ := acceptCode_eq_some h1
      exact ⟨length_ge_four_ne_nil hlen, hall, re_search_sub _ _ _ _ ho⟩
    | none =>
      simp only [h1] at h
      cases h2 : acceptCode (re_search tryP2 none (text.take 1000)) with
      | some c2 =>
        simp only [h2] at h
        injection h with h
        subst h
        obtain ⟨ho, hall, hlen, _⟩ := acceptCode_eq_some h2
        exact ⟨length_ge_four_ne_nil hlen, hall, re_search_sub _ _ _ _ ho⟩
      | none =>
        simp only [h2] at h
        cases h3 : acceptCode (re_search tryP3 none (clean_html_text (text.take 1000))) with
        | some c3 =>
          simp only [h3] at h
          injection h with h
          subst h
          obtain ⟨ho, hall, hlen, _⟩ := acceptCode_eq_some h3
          refine ⟨length_ge_four_ne_nil hlen, hall, ?_⟩
          exact clean_sub _ _ (length_ge_four_ne_nil hlen) (digits_ne_space hall)
            (re_search_sub _ _ _ _ ho)
        | none =>
          simp only [h3] at h
          cases h4 : acceptCode (p4_result (clean_html_text (text.take 1000))) with
          | some c4 =>
            simp only [h4] at h
            injection h with h
            subst h
            obtain ⟨ho, hall, hlen, _⟩ := acceptCode_eq_some h4
            refine ⟨length_ge_four_ne_nil hlen, hall, ?_⟩
            exact clean_sub _ _ (length_ge_four_ne_nil hlen) (digits_ne_space hall)
              (p4_sub _ _ ho)
          | none =>
            simp only [h4] at h
            obtain ⟨ho, hall, hlen, _⟩ := acceptCode_eq_some h
            refine ⟨length_ge_four_ne_nil hlen, hall, ?_⟩
            exact clean_sub _ _ (length_ge_four_ne_nil hlen) (digits_ne_space hall)
              (re_search_sub _ _ _ _ ho)

theorem c10_witness :
    "7654321".data ≠ [] ∧ ("7654321".data).all Char.isDigit = true ∧
      IsSub ("7654321".data) (("Code 7654321".data).take 1000) :=
  c10_code_is_substring_of_prefix ("Code 7654321".data) ("7654321".data) (by decide)

/-- C9: the body `"您的验证码是 482913，请勿泄露"` yields the code `"482913"`
(via pattern 5: the six-digit run is preceded by a space and followed by a
full-width comma, neither in the look-around exclusion classes). -/
theorem c9_chinese_body_extracts_482913 :
    extract_verification_code ("您的验证码是 482913，请勿泄露".data) = some ("482913".data) := by
  decide

/-- C5: extraction is deterministic — it is a pure function of the input
text alone (the method reads no mutable monitor state), so identical texts
yield identical results. -/
theorem c5_extraction_deterministic (t1 t2 : List Char) (h : t1 = t2) :
    extract_verification_code t1 = extract_verification_code t2 := by
  rw [h]

theorem c5_witness :
    extract_verification_code ("验证码:482913".data) =
      extract_verification_code ("验证码:482913".data) :=
  c5_extraction_deterministic ("验证码:482913".data) ("验证码:482913".data) rfl

/-- C1 counterexample: the claim "denylisted placeholders are never returned"
is false on the code — the body `"验证码:123456"` makes the extractor return
exactly the placeholder `"123456"`; the acceptance filter at main.py lines
434/443 has no denylist. -/
theorem c1_denylist_counterexample :
    extract_verification_code ("验证码:123456".data) = some ("123456".data) := by
  decide

/-- C1 amended: the acceptance filter checks only that a candidate is
all-digit with length 4-8; denylisted placeholder values such as `"1111"`
and `"000000"` are returned as accepted codes when textually present. -/
theorem c1_amended_placeholders_returned :
    extract_verification_code ("Code:1111".data) = some ("1111".data) ∧
      extract_verification_code ("验证码:000000".data) = some ("000000".data) := by
  constructor
  · decide
  · decide

/-- C2 counterexample: the claim "a subject containing a hard-exclude term is
never forwarded" is false on the code — `check_emails` consults only the
extracted code, so a message with subject `"Weekly Report 123456"`
(containing "Report") and a code-bearing body is forwarded. -/
theorem c2_hard_exclude_counterexample :
    IsSub ("Report".data) ("Weekly Report 123456".data) ∧
      message_forwarded ("Weekly Report 123456".data) ("验证码:555777".data) true = true := by
  constructor
  · exact ⟨"Weekly ".data, " 123456".data, by decide⟩
  · decide

/-- C2 amended: `check_emails` applies no subject-based exclusion at all —
the forwarding decision is a function of the body's extracted code (and the
delivery outcome) only; changing the subject never changes the decision. -/
theorem c2_amended_subject_ignored (subj subj2 body : List Char) (sendOk : Bool) :
    message_forwarded subj body sendOk = message_forwarded subj2 body sendOk ∧
      message_forwarded subj body sendOk =
        (pyTruthy (extract_verification_code body) && sendOk) := by
  constructor
  · rfl
  · rfl

/-- C7: when the error counter reaches `MAX_ERROR_COUNT = 5` after a cycle
update, the scheduler cools down: it sleeps `ERROR_BACKOFF = 60` seconds and
resets the counter to `MAX_ERROR_COUNT // 2`, a reduced but strictly
non-zero value (main.py lines 661-664). -/
theorem c7_cooling_reset (ec : Int) (b : Bool)
    (h : Config.MAX_ERROR_COUNT ≤ run_cycle_update ec b) :
    run_error_step ec b = (Config.MAX_ERROR_COUNT / 2, some Config.ERROR_BACKOFF) ∧
      0 < Config.MAX_ERROR_COUNT / 2 ∧
      Config.MAX_ERROR_COUNT / 2 < Config.MAX_ERROR_COUNT ∧
      Config.ERROR_BACKOFF = 60 ∧ Config.MAX_ERROR_COUNT = 5 := by
  refine ⟨?_, by decide, by decide, rfl, rfl⟩
  simp only [run_error_step, if_pos h]

theorem c7_witness :
    run_error_step 4 false = (Config.MAX_ERROR_COUNT / 2, some Config.ERROR_BACKOFF) ∧
      0 < Config.MAX_ERROR_COUNT / 2 ∧
      Config.MAX_ERROR_COUNT / 2 < Config.MAX_ERROR_COUNT ∧
      Config.ERROR_BACKOFF = 60 ∧ Config.MAX_ERROR_COUNT = 5 :=
  c7_cooling_reset 4 false (by decide)

/-- Any single error-bookkeeping pass lands the stored counter in `[0, 4]`,
provided it starts non-negative. -/
theorem run_error_step_bounds (ec : Int) (b : Bool) (h0 : 0 ≤ ec) :
    0 ≤ (run_error_step ec b).1 ∧ (run_error_step ec b).1 ≤ 4 := by
  have hchar : run_cycle_update ec b = max 0 (ec - 1) ∨ run_cycle_update ec b = ec + 1 := by
    cases b
    · right; simp [run_cycle_update]
    · left; simp [run_cycle_update]
  have he : 0 ≤ run_cycle_update ec b := by
    rcases hchar with h | h <;> rw [h]
    · exact le_max_left 0 (ec - 1)
    · omega
  simp only [run_error_step]
  split
  · constructor
    · norm_num [Config.MAX_ERROR_COUNT]
    · norm_num [Config.MAX_ERROR_COUNT]
  · rename_i hlt
    simp only [Config.MAX_ERROR_COUNT, not_le] at hlt
    exact ⟨he, by omega⟩

/-- C6: the error-backoff counter is a loop invariant — starting from zero,
after every cycle-handling pass (decrement toward the floor of zero on
success, increment on failure, reset on reaching the maximum) the stored
counter is non-negative and at most 4, and therefore even the momentary
post-update value never exceeds the configured maximum of 5. -/
theorem c6_error_counter_invariant (outcomes : List Bool) :
    0 ≤ run_error_trace outcomes ∧ run_error_trace outcomes ≤ Config.MAX_ERROR_COUNT ∧
      ∀ b : Bool, 0 ≤ run_cycle_update (run_error_trace outcomes) b ∧
        run_cycle_update (run_error_trace outcomes) b ≤ Config.MAX_ERROR_COUNT := by
  have main : ∀ (l : List Bool) (ec : Int), 0 ≤ ec → ec ≤ 4 →
      0 ≤ l.foldl (fun e b => (run_error_step e b).1) ec ∧
        l.foldl (fun e b => (run_error_step e b).1) ec ≤ 4 := by
    intro l
    induction l with
    | nil => intro ec h1 h2; exact ⟨h1, h2⟩
    | cons b bs ih =>
      intro ec h1 h2
      simp only [List.foldl_cons]
      obtain ⟨g1, g2⟩ := run_error_step_bounds ec b h1
      exact ih _ g1 g2
  obtain ⟨g1, g2⟩ := main outcomes 0 (le_refl 0) (by norm_num)
  have htr : run_error_trace outcomes = outcomes.foldl (fun e b => (run_error_step e b).1) 0 := rfl
  rw [htr]
  refine ⟨g1, le_trans g2 (by norm_num [Config.MAX_ERROR_COUNT]), ?_⟩
  intro b
  have hchar : ∀ x : Int, run_cycle_update x b = max 0 (x - 1) ∨ run_cycle_update x b = x + 1 := by
    intro x
    cases b
    · right; simp [run_cycle_update]
    · left; simp [run_cycle_update]
  rcases hchar (outcomes.foldl (fun e b => (run_error_step e b).1) 0) with h | h <;> rw [h]
  · refine ⟨le_max_left _ _, max_le (by norm_num [Config.MAX_ERROR_COUNT]) ?_⟩
    simp only [Config.MAX_ERROR_COUNT]
    omega
  · refine ⟨by omega, ?_⟩
    simp only [Config.MAX_ERROR_COUNT]
    omega

/-- C8: delivery is attempted to every configured destination independently
(the attempt list covers exactly the configured chat ids, whatever the
per-destination outcomes), and the dispatcher reports overall success iff
at least one destination answered HTTP 200. -/
theorem c8_dispatch_independent_success_iff (chat_ids : List String)
    (outcome : String → Option Nat) :
    (send_to_telegram_attempts chat_ids outcome).map Prod.fst = chat_ids ∧
      (send_to_telegram chat_ids outcome = true ↔
        ∃ cid ∈ chat_ids, outcome cid = some 200) := by
  constructor
  · simp [send_to_telegram_attempts, List.map_map, Function.comp_def]
  · simp only [send_to_telegram, decide_eq_true_eq]
    rw [List.countP_pos_iff]
    constructor
    · rintro ⟨a, ha, hp⟩
      simp only [send_to_telegram_attempts, List.mem_map] at ha
      obtain ⟨cid, hcid, rfl⟩ := ha
      refine ⟨cid, hcid, ?_⟩
      cases ho : outcome cid with
      | none => rw [ho] at hp; simp [telegram_ok] at hp
      | some st =>
        rw [ho] at hp
        simp only [telegram_ok, beq_iff_eq] at hp
        rw [hp]
    · rintro ⟨cid, hcid, ho⟩
      refine ⟨(cid, telegram_ok (outcome cid)), ?_, ?_⟩
      · simp only [send_to_telegram_attempts, List.mem_map]
        exact ⟨cid, hcid, rfl⟩
      · simp [telegram_ok, ho]

theorem handle_message_msgId {e : MailEvent} {i : Nat} {r : Option EmailInfoM}
    (h : e ∈ handle_message i r) : MailEvent.msgId e = i := by
  cases r with
  | none => simp [handle_message] at h
  | some info =>
    simp only [handle_message] at h
    rcases List.mem_append.mp h with h1 | h1
    · split at h1
      · simp only [List.mem_singleton] at h1
        subst h1
        rfl
      · simp at h1
    · simp only [List.mem_singleton] at h1
      subst h1
      rfl

theorem check_emails_loop_msgId {e : MailEvent} :
    ∀ {l : List (Nat × Option EmailInfoM)}, e ∈ check_emails_loop l →
      MailEvent.msgId e ∈ l.map Prod.fst := by
  intro l
  induction l with
  | nil => intro h; simp [check_emails_loop] at h
  | cons m rest ih =>
    intro h
    simp only [check_emails_loop] at h
    rcases List.mem_append.mp h with h1 | h1
    · simp [handle_message_msgId h1]
    · exact List.mem_cons_of_mem _ (ih h1)

theorem check_emails_filter_eq
    (msgs : List (Nat × Option EmailInfoM)) (i : Nat) (info : EmailInfoM)
    (hnd : (msgs.map Prod.fst).Nodup) (hmem : (i, some info) ∈ msgs) :
    (check_emails_loop msgs).filter (fun e => MailEvent.msgId e == i) =
      (if pyTruthy info.code then [MailEvent.sent i, MailEvent.marked i]
        else [MailEvent.marked i]) := by
  induction msgs with
  | nil => cases hmem
  | cons m rest ih =>
    simp only [check_emails_loop, List.filter_append]
    simp only [List.map_cons, List.nodup_cons] at hnd
    rcases List.mem_cons.mp hmem with heq | hmem'
    · have hm1 : m = (i, some info) := heq.symm
      subst hm1
      have hrest : (check_emails_loop rest).filter (fun e => MailEvent.msgId e == i) = [] := by
        rw [List.filter_eq_nil_iff]
        intro e he
        have hmid := check_emails_loop_msgId he
        simp only [beq_iff_eq]
        intro hei
        exact hnd.1 (hei ▸ hmid)
      rw [hrest, List.append_nil]
      cases hcode : pyTruthy info.code with
      | true => simp [handle_message, hcode, List.filter, MailEvent.msgId]
      | false => simp [handle_message, hcode, List.filter, MailEvent.msgId]
    · have hi : i ∈ rest.map Prod.fst := by
        have := List.mem_map_of_mem Prod.fst hmem'
        simpa using this
      have hne : m.1 ≠ i := fun he => hnd.1 (he ▸ hi)
      have hm : (handle_message m.1 m.2).filter (fun e => MailEvent.msgId e == i) = [] := by
        rw [List.filter_eq_nil_iff]
        intro e he
        simp only [beq_iff_eq]
        rw [handle_message_msgId he]
        exact hne
      rw [hm, List.nil_append]
      exact ih hnd.2 hmem'

/-- C3: in one cycle, every fetched-and-evaluated message produces exactly one
mark-read action, whether forwarded or not (a message without an extractable
code produces no send attempt but is still marked read), and that mark-read
comes strictly after the send attempt for the same message — the events
tagged with the message's id are exactly `[sent, marked]` (code present) or
`[marked]` (no code). -/
theorem c3_marked_read_exactly_once_after_decision
    (msgs : List (Nat × Option EmailInfoM)) (i : Nat) (info : EmailInfoM)
    (hnd : (msgs.map Prod.fst).Nodup) (hmem : (i, some info) ∈ msgs) :
    (check_emails_loop msgs).filter (fun e => MailEvent.msgId e == i) =
      (if pyTruthy info.code then [MailEvent.sent i, MailEvent.marked i]
        else [MailEvent.marked i]) ∧
      (check_emails_loop msgs).count (MailEvent.marked i) = 1 := by
  have hf := check_emails_filter_eq msgs i info hnd hmem
  refine ⟨hf, ?_⟩
  have hp : (fun e => MailEvent.msgId e == i) (MailEvent.marked i) = true := by
    simp [MailEvent.msgId]
  have hcf := @List.count_filter MailEvent _ _ (fun e => MailEvent.msgId e == i)
    (MailEvent.marked i) (check_emails_loop msgs) hp
  rw [← hcf, hf]
  cases pyTruthy info.code <;> simp [List.count_cons]

theorem c3_witness :
    (check_emails_loop
        [(1, some (EmailInfoM.mk ['s'] (some ['5','6','7','8']))),
          (2, some (EmailInfoM.mk ['t'] none))]).filter
        (fun e => MailEvent.msgId e == 1) =
      (if pyTruthy (EmailInfoM.mk ['s'] (some ['5','6','7','8'])).code
        then [MailEvent.sent 1, MailEvent.marked 1]
        else [MailEvent.marked 1]) ∧
      (check_emails_loop
          [(1, some (EmailInfoM.mk ['s'] (some ['5','6','7','8']))),
            (2, some (EmailInfoM.mk ['t'] none))]).count (MailEvent.marked 1) = 1 :=
  c3_marked_read_exactly_once_after_decision
    [(1, some (EmailInfoM.mk ['s'] (some ['5','6','7','8']))),
      (2, some (EmailInfoM.mk ['t'] none))]
    1 (EmailInfoM.mk ['s'] (some ['5','6','7','8']))
    (by decide) (by decide)
